import Mathlib

/-!
Verification of the uMessage registry/router core.

The source keeps two mutable JS `Map`s:
  `users  : Map<socket, {name, mobile}>`   (socket -> registered user)
  `groups : Map<groupName, Set<socket>>`   (group name -> member connections)
and four handlers (`_handleRegister`, `_handleJoinGroup`, `_handleChatMessage`,
`handleClose`) dispatched from `handleMessage` inside a try/catch.
`src/server.js` inlines the identical logic in its `message`/`close` callbacks.

We embed JS `Map` as an association list in insertion order (`Map.set` on an
existing key updates the value in place, otherwise appends; iteration is
insertion order) and JS `Set` as a duplicate-free-by-construction list
(`Set.add` is a no-op on an existing element, otherwise appends).
Connections (uWS sockets) are opaque handles, modelled as `Nat`.
Each handler returns the new state together with the list of
`(connection, payload)` sends it performs, in order.
-/

abbrev Conn := Nat

structure User where
  name : String
  mobile : String
deriving DecidableEq

/-- `Map.get`: value stored at key `k`, if any (first entry wins). -/
def mapGet {K V : Type} [DecidableEq K] : List (K × V) → K → Option V
  | [], _ => none
  | (k', v) :: rest, k => if k' = k then some v else mapGet rest k

/-- `Map.set`: update the value in place if the key exists, else append. -/
def mapSet {K V : Type} [DecidableEq K] : List (K × V) → K → V → List (K × V)
  | [], k, v => [(k, v)]
  | (k', v') :: rest, k, v =>
      if k' = k then (k, v) :: rest else (k', v') :: mapSet rest k v

/-- `Map.delete`: remove the entry for key `k` (keys are unique in a JS
`Map`, so dropping every occurrence agrees with deleting the one entry). -/
def mapDelete {K V : Type} [DecidableEq K] : List (K × V) → K → List (K × V)
  | [], _ => []
  | (k', v) :: rest, k =>
      if k' = k then mapDelete rest k else (k', v) :: mapDelete rest k

/-- `Map.keys()`, in iteration (insertion) order. -/
def mapKeys {K V : Type} (m : List (K × V)) : List K :=
  m.map Prod.fst

/-- `Set.add`: no-op if already a member, else append. -/
def setAdd (s : List Conn) (c : Conn) : List Conn :=
  if c ∈ s then s else s ++ [c]

/-- `Set.delete`: remove the element. -/
def setDelete (s : List Conn) (c : Conn) : List Conn :=
  s.filter (fun x => x ≠ c)

/-- The two registries held by the `uMessage` instance (and, identically, by
the module-level `users`/`groups` maps of `src/server.js`). -/
structure St where
  users : List (Conn × User)
  groups : List (String × List Conn)
deriving DecidableEq

def St.init : St := ⟨[], []⟩

/-- Outgoing wire payloads, one constructor per `type` tag the server emits. -/
inductive Payload where
  | registered (success : Bool)
  | group_list (groups : List String)
  | user_list (users : List User)
  | user_joined (user : User)
  | user_left (mobile : String)
  | joined_group (groupName : String)
  | group_created (groupName : String)
  | message (sender fromMobile toId content : String)
deriving DecidableEq

/-- The linear scan of `users.entries()` used by the DM branch of
`_handleChatMessage`: first connection in registry iteration order whose
registered `mobile` equals `to`. -/
def findByIdentity : List (Conn × User) → String → Option Conn
  | [], _ => none
  | (socket, u) :: rest, toId =>
      if u.mobile = toId then some socket else findByIdentity rest toId

/-- `sender ? sender.name : 'Anonymous'` of `_handleChatMessage`. -/
def senderName (users : List (Conn × User)) (ws : Conn) : String :=
  match mapGet users ws with
  | some u => u.name
  | none => "Anonymous"

/-- `sender ? sender.mobile : '?'` of `_handleChatMessage`. -/
def senderMobile (users : List (Conn × User)) (ws : Conn) : String :=
  match mapGet users ws with
  | some u => u.mobile
  | none => "?"

/-- The `{type:'message', from, fromMobile, to, content}` object built (twice,
identically) in `_handleChatMessage`. -/
def msgPayload (users : List (Conn × User)) (ws : Conn) (toId content : String) : Payload :=
  Payload.message (senderName users ws) (senderMobile users ws) toId content

/-- `uMessage._handleRegister` (= the `'register'` branch of `src/server.js`). -/
def handleRegister (st : St) (ws : Conn) (name mobile : String) :
    St × List (Conn × Payload) :=
  let users' := mapSet st.users ws ⟨name, mobile⟩
  let groupList := mapKeys st.groups
  let userList := (users'.filter (fun p => p.1 ≠ ws)).map Prod.snd
  ({ st with users := users' },
    [(ws, Payload.registered true),
     (ws, Payload.group_list groupList),
     (ws, Payload.user_list userList)]
    ++ (users'.filter (fun p => p.1 ≠ ws)).map
         (fun p => (p.1, Payload.user_joined ⟨name, mobile⟩)))

/-- `uMessage._handleJoinGroup` (= the `'join_group'` branch of `src/server.js`). -/
def handleJoinGroup (st : St) (ws : Conn) (groupName : String) :
    St × List (Conn × Payload) :=
  match mapGet st.groups groupName with
  | some members =>
      ({ st with groups := mapSet st.groups groupName (setAdd members ws) },
        [(ws, Payload.joined_group groupName)])
  | none =>
      ({ st with groups := st.groups ++ [(groupName, [ws])] },
        (ws, Payload.joined_group groupName)
          :: st.users.map (fun p => (p.1, Payload.group_created groupName)))

/-- `uMessage._handleChatMessage` (= the `'message'` branch of `src/server.js`). -/
def handleChatMessage (st : St) (ws : Conn) (toId content : String) :
    St × List (Conn × Payload) :=
  match mapGet st.groups toId with
  | some group =>
      (st, group.map (fun socket => (socket, msgPayload st.users ws toId content)))
  | none =>
      match findByIdentity st.users toId with
      | some targetSocket =>
          (st, [(targetSocket, msgPayload st.users ws toId content)])
      | none => (st, [])

/-- `uMessage.handleClose` (= the `close` callback of `src/server.js`): the
`user_left` broadcast is computed from the pre-scrub `users` map, excluding
the closing socket; then the socket is deleted from `users` and from every
group's member set. -/
def handleClose (st : St) (ws : Conn) : St × List (Conn × Payload) :=
  let out :=
    match mapGet st.users ws with
    | some user =>
        (st.users.filter (fun p => p.1 ≠ ws)).map
          (fun p => (p.1, Payload.user_left user.mobile))
    | none => []
  (⟨mapDelete st.users ws,
    st.groups.map (fun g => (g.1, setDelete g.2 ws))⟩, out)

/-- One inbound frame as seen by `handleMessage`: either it parses to one of
the three recognized event kinds, or to an unrecognized `type` tag
(`other`), or `JSON.parse` throws (`malformed`, the `catch` branch). -/
inductive Inbound where
  | register (name mobile : String)
  | join_group (groupName : String)
  | message (toId content : String)
  | other
  | malformed
deriving DecidableEq

/-- `uMessage.handleMessage`: dispatch on `json.type`; unrecognized tags fall
through the if/else chain and parse failures land in the `catch` — both
leave the registries untouched and send nothing. -/
def handleMessage (st : St) (ws : Conn) (inb : Inbound) : St × List (Conn × Payload) :=
  match inb with
  | .register name mobile => handleRegister st ws name mobile
  | .join_group g => handleJoinGroup st ws g
  | .message toId content => handleChatMessage st ws toId content
  | .other => (st, [])
  | .malformed => (st, [])

/-- A transport-layer lifecycle event: an inbound frame or a disconnect. -/
inductive Event where
  | inboundEv (ws : Conn) (inb : Inbound)
  | closeEv (ws : Conn)

def stepEvent (st : St) (e : Event) : St × List (Conn × Payload) :=
  match e with
  | .inboundEv ws inb => handleMessage st ws inb
  | .closeEv ws => handleClose st ws

/-- Run a sequence of lifecycle events against the registries. -/
def run (st : St) (es : List Event) : St :=
  es.foldl (fun s e => (stepEvent s e).1) st

/-! Basic lemmas about the JS `Map`/`Set` embedding. -/

theorem mapGet_mapSet {K V : Type} [DecidableEq K] (m : List (K × V)) (k j : K) (v : V) :
    mapGet (mapSet m k v) j = if j = k then some v else mapGet m j := by
  induction m with
  | nil =>
      by_cases h : j = k
      · simp [mapSet, mapGet, h]
      · simp [mapSet, mapGet, h, Ne.symm h]
  | cons hd tl ih =>
      obtain ⟨a, w⟩ := hd
      by_cases hak : a = k
      · subst hak
        by_cases hjk : j = a
        · simp [mapSet, mapGet, hjk]
        · simp [mapSet, mapGet, hjk, Ne.symm hjk]
      · by_cases haj : a = j
        · subst haj
          simp [mapSet, mapGet, hak]
        · simp [mapSet, mapGet, hak, haj, ih]

theorem mapGet_append {K V : Type} [DecidableEq K] (m m' : List (K × V)) (k : K) :
    mapGet (m ++ m') k
      = (match mapGet m k with | some v => some v | none => mapGet m' k) := by
  induction m with
  | nil => simp [mapGet]
  | cons hd tl ih =>
      obtain ⟨a, w⟩ := hd
      by_cases h : a = k <;> simp [mapGet, h, ih]

theorem mapGet_eq_none_iff {K V : Type} [DecidableEq K] (m : List (K × V)) (k : K) :
    mapGet m k = none ↔ k ∉ mapKeys m := by
  induction m with
  | nil => simp [mapGet, mapKeys]
  | cons hd tl ih =>
      obtain ⟨a, w⟩ := hd
      by_cases h : a = k <;> simp [mapGet, mapKeys, h, Ne.symm, ih] at *

theorem mapGet_isSome_iff {K V : Type} [DecidableEq K] (m : List (K × V)) (k : K) :
    (mapGet m k).isSome = true ↔ k ∈ mapKeys m := by
  cases hg : mapGet m k with
  | none =>
      have h := (mapGet_eq_none_iff m k).mp hg
      simp [h]
  | some v =>
      have hne : ¬ mapGet m k = none := by simp [hg]
      have hk := (mapGet_eq_none_iff m k).not.mp hne
      simp only [not_not] at hk
      simp [hk]

theorem mapGet_mapDelete {K V : Type} [DecidableEq K] (m : List (K × V)) (k j : K) :
    mapGet (mapDelete m k) j = if j = k then none else mapGet m j := by
  induction m with
  | nil => simp [mapDelete, mapGet]
  | cons hd tl ih =>
      obtain ⟨a, w⟩ := hd
      by_cases hak : a = k
      · subst hak
        by_cases hja : j = a
        · subst hja
          simp [mapDelete, mapGet, ih]
        · have haj' : ¬ a = j := fun h => hja h.symm
          simp [mapDelete, mapGet, hja, haj', ih]
      · by_cases haj : a = j
        · subst haj
          simp [mapDelete, mapGet, hak]
        · simp [mapDelete, mapGet, hak, haj, ih]

theorem setAdd_of_mem {s : List Conn} {c : Conn} (h : c ∈ s) : setAdd s c = s := by
  simp [setAdd, h]

theorem mem_setAdd_self (s : List Conn) (c : Conn) : c ∈ setAdd s c := by
  by_cases h : c ∈ s <;> simp [setAdd, h]

theorem mapSet_eq_self {K V : Type} [DecidableEq K] {m : List (K × V)} {k : K} {v : V}
    (h : mapGet m k = some v) : mapSet m k v = m := by
  induction m with
  | nil => simp [mapGet] at h
  | cons hd tl ih =>
      obtain ⟨a, w⟩ := hd
      by_cases hak : a = k
      · subst hak
        simp [mapGet] at h
        simp [mapSet, h]
      · simp [mapGet, hak] at h
        simp [mapSet, hak, ih h]

/-- C1: for every `message{to, content}` event, if `to` names an existing
group the payload goes exactly to that group's current member list, in set
iteration order, with no self-exclusion; otherwise it goes only to the first
connection in registry iteration order whose registered identity equals `to`
(`findByIdentity`), and to nobody when no identity matches. -/
theorem C1_message_routing (st : St) (ws : Conn) (toId content : String) :
    (∀ mem, mapGet st.groups toId = some mem →
        (handleChatMessage st ws toId content).2
          = mem.map (fun s => (s, msgPayload st.users ws toId content)))
    ∧ (mapGet st.groups toId = none →
        (handleChatMessage st ws toId content).2
          = (match findByIdentity st.users toId with
              | some t => [(t, msgPayload st.users ws toId content)]
              | none => [])) := by
  constructor
  · intro mem h
    simp [handleChatMessage, h]
  · intro h
    cases hf : findByIdentity st.users toId <;>
      simp [handleChatMessage, h, hf]

def stC1 : St :=
  ⟨[(1, ⟨"Alice", "111"⟩), (2, ⟨"Bob", "222"⟩)], [("general", [1, 2])]⟩

/-- Witness for C1: in a state where group `general` has members 1 and 2,
a message from connection 1 to `general` is sent to both members. -/
theorem C1_message_routing_witness :
    (handleChatMessage stC1 1 "general" "hi").2
      = [1, 2].map (fun s => (s, msgPayload stC1.users 1 "general" "hi")) :=
  (C1_message_routing stC1 1 "general" "hi").1 [1, 2] (by rfl)

/-- C6: a raw inbound frame that fails to parse (the `catch` branch of
`handleMessage`) delivers nothing and leaves both registries unchanged; the
handler is a total function, so it cannot throw past the catch. -/
theorem C6_malformed_dropped (st : St) (ws : Conn) :
    handleMessage st ws Inbound.malformed = (st, []) := rfl

/-- C8: joining a group a second time from the same connection is a no-op on
the registries: the group's member set (hence its size) is unchanged, and in
fact the whole group registry is unchanged. -/
theorem C8_join_idempotent (st : St) (ws : Conn) (g : String) :
    mapGet ((handleJoinGroup ((handleJoinGroup st ws g).1) ws g).1).groups g
      = mapGet ((handleJoinGroup st ws g).1).groups g
    ∧ ((handleJoinGroup ((handleJoinGroup st ws g).1) ws g).1).groups
      = ((handleJoinGroup st ws g).1).groups := by
  cases h : mapGet st.groups g with
  | some members =>
      have h1 : mapGet (mapSet st.groups g (setAdd members ws)) g
          = some (setAdd members ws) := by
        simp [mapGet_mapSet]
      have hadd : setAdd (setAdd members ws) ws = setAdd members ws :=
        setAdd_of_mem (mem_setAdd_self members ws)
      constructor
      · simp [handleJoinGroup, h, h1, hadd, mapGet_mapSet]
      · simp [handleJoinGroup, h, h1, hadd, mapSet_eq_self h1]
  | none =>
      have h1 : mapGet (st.groups ++ [(g, [ws])]) g = some [ws] := by
        rw [mapGet_append, h]
        simp [mapGet]
      have hadd : setAdd [ws] ws = [ws] := setAdd_of_mem (by simp)
      constructor
      · simp [handleJoinGroup, h, h1, hadd, mapGet_mapSet]
      · simp [handleJoinGroup, h, h1, hadd, mapSet_eq_self h1]

theorem findByIdentity_mem_keys (us : List (Conn × User)) (i : String) (t : Conn)
    (h : findByIdentity us i = some t) : t ∈ mapKeys us := by
  induction us with
  | nil => simp [findByIdentity] at h
  | cons hd tl ih =>
      obtain ⟨s, u⟩ := hd
      by_cases hm : u.mobile = i
      · simp [findByIdentity, hm] at h
        simp [mapKeys, h]
      · simp [findByIdentity, hm] at h
        have hmem := ih h
        simp [mapKeys] at hmem ⊢
        exact Or.inr hmem

theorem not_mem_setDelete_self (s : List Conn) (c : Conn) : c ∉ setDelete s c := by
  simp [setDelete]

theorem mapDelete_eq_filter {K V : Type} [DecidableEq K] (m : List (K × V)) (k : K) :
    mapDelete m k = m.filter (fun p => p.1 ≠ k) := by
  induction m with
  | nil => simp [mapDelete]
  | cons hd tl ih =>
      obtain ⟨a, w⟩ := hd
      by_cases h : a = k <;> simp [mapDelete, h, ih]

theorem handleClose_users_absent (st : St) (ws : Conn) :
    mapGet ((handleClose st ws).1).users ws = none := by
  simp [handleClose, mapGet_mapDelete]

theorem handleClose_groups_scrubbed (st : St) (ws : Conn) :
    ∀ p ∈ ((handleClose st ws).1).groups, ws ∉ p.2 := by
  intro p hp
  simp only [handleClose, List.mem_map] at hp
  obtain ⟨q, _, rfl⟩ := hp
  exact not_mem_setDelete_self q.2 ws

/-- C2: after processing any sequence of lifecycle events that ends with a
disconnect of connection `c`, the registry holds no entry for `c` (so no
`findByIdentity` scan can resolve to `c`) and `c` is in no group's member
set. -/
theorem C2_disconnect_cleanup (es : List Event) (c : Conn) :
    mapGet (run St.init (es ++ [Event.closeEv c])).users c = none
    ∧ (∀ ident, findByIdentity (run St.init (es ++ [Event.closeEv c])).users ident ≠ some c)
    ∧ (∀ p ∈ (run St.init (es ++ [Event.closeEv c])).groups, c ∉ p.2) := by
  have hrun : run St.init (es ++ [Event.closeEv c])
      = (handleClose (run St.init es) c).1 := by
    simp [run, List.foldl_append, stepEvent]
  rw [hrun]
  refine ⟨handleClose_users_absent _ c, ?_, handleClose_groups_scrubbed _ c⟩
  intro ident hfind
  have hmem := findByIdentity_mem_keys _ _ _ hfind
  have hnone := handleClose_users_absent (run St.init es) c
  exact (mapGet_eq_none_iff _ _).mp hnone hmem

/-- Witness for C2: register connection 1 and join it to a group, then
disconnect it; it is gone from the user registry. -/
theorem C2_disconnect_cleanup_witness :
    mapGet (run St.init ([Event.inboundEv 1 (Inbound.register "Alice" "111"),
        Event.inboundEv 1 (Inbound.join_group "general")]
      ++ [Event.closeEv 1])).users 1 = none :=
  (C2_disconnect_cleanup [Event.inboundEv 1 (Inbound.register "Alice" "111"),
      Event.inboundEv 1 (Inbound.join_group "general")] 1).1

/-- C5: on disconnect, a `user_left` event carrying the stored identity goes
to exactly the registered connections other than the closing one — computed
from the pre-scrub registry — if and only if the closing connection was
registered; never to the closing connection itself; and the recipients are
exactly the connections that remain registered afterwards. -/
theorem C5_user_left_broadcast (st : St) (ws : Conn) :
    (∀ u, mapGet st.users ws = some u →
        (handleClose st ws).2
          = (st.users.filter (fun p => p.1 ≠ ws)).map
              (fun p => (p.1, Payload.user_left u.mobile)))
    ∧ (mapGet st.users ws = none → (handleClose st ws).2 = [])
    ∧ (∀ p ∈ (handleClose st ws).2, p.1 ≠ ws)
    ∧ (mapGet st.users ws ≠ none →
        (handleClose st ws).2.map Prod.fst = mapKeys ((handleClose st ws).1).users) := by
  refine ⟨?_, ?_, ?_, ?_⟩
  · intro u hu
    simp [handleClose, hu]
  · intro hu
    simp [handleClose, hu]
  · intro p hp
    cases hu : mapGet st.users ws with
    | none => simp [handleClose, hu] at hp
    | some u =>
        simp only [handleClose, hu, List.mem_map, List.mem_filter] at hp
        obtain ⟨q, ⟨_, hq2⟩, rfl⟩ := hp
        simpa using hq2
  · intro hu
    cases hg : mapGet st.users ws with
    | none => exact absurd hg hu
    | some u =>
        simp [handleClose, hg, mapKeys, mapDelete_eq_filter, List.map_map,
          Function.comp]

def stC5 : St :=
  ⟨[(1, ⟨"Alice", "111"⟩), (2, ⟨"Bob", "222"⟩)], [("general", [1, 2])]⟩

/-- Witness for C5: when registered connection 2 (Bob, identity 222)
disconnects, connection 1 receives `user_left` with mobile 222. -/
theorem C5_user_left_broadcast_witness :
    (handleClose stC5 2).2 = [(1, Payload.user_left "222")] := by
  have h := (C5_user_left_broadcast stC5 2).1 ⟨"Bob", "222"⟩ (by rfl)
  simpa [stC5] using h

/-- C9: no handler removes a group name — any group existing before an
inbound event still exists after it, disconnect preserves the group-name
list exactly (while scrubbing the closing connection from every member
set), so a group that becomes empty persists. -/
theorem C9_groups_only_grow (st : St) (ws : Conn) (inb : Inbound) (g : String) :
    ((mapGet st.groups g).isSome = true →
        (mapGet ((handleMessage st ws inb).1).groups g).isSome = true)
    ∧ mapKeys ((handleClose st ws).1).groups = mapKeys st.groups
    ∧ (∀ p ∈ ((handleClose st ws).1).groups, ws ∉ p.2) := by
  refine ⟨?_, ?_, handleClose_groups_scrubbed st ws⟩
  · intro hsome
    cases inb with
    | register name mobile => simpa [handleMessage, handleRegister] using hsome
    | join_group gn =>
        cases h : mapGet st.groups gn with
        | some members =>
            by_cases hgn : g = gn <;>
              simp [handleMessage, handleJoinGroup, h, mapGet_mapSet, hgn, hsome]
        | none =>
            rw [show ((handleMessage st ws (Inbound.join_group gn)).1).groups
                = st.groups ++ [(gn, [ws])] by simp [handleMessage, handleJoinGroup, h]]
            rw [mapGet_append]
            cases hg0 : mapGet st.groups g with
            | some v => simp
            | none => simp [hg0] at hsome
    | message toId content =>
        cases hg0 : mapGet st.groups toId with
        | some mem => simpa [handleMessage, handleChatMessage, hg0] using hsome
        | none =>
            cases hf : findByIdentity st.users toId <;>
              simpa [handleMessage, handleChatMessage, hg0, hf] using hsome
    | other => simpa [handleMessage] using hsome
    | malformed => simpa [handleMessage] using hsome
  · simp [handleClose, mapKeys, List.map_map, Function.comp]

/-- Witness for C9: the group `general` survives another connection joining a
new group. -/
theorem C9_groups_only_grow_witness :
    (mapGet ((handleMessage stC5 1 (Inbound.join_group "dev")).1).groups
      "general").isSome = true :=
  (C9_groups_only_grow stC5 1 (Inbound.join_group "dev") "general").1 (by rfl)

/-- The destination set of `_handleChatMessage`: members of the group named
`to` if it exists, else the first identity match, else nobody. -/
def routeTargets (st : St) (toId : String) : List Conn :=
  match mapGet st.groups toId with
  | some mem => mem
  | none =>
      match findByIdentity st.users toId with
      | some t => [t]
      | none => []

/-- C7: a `message` from a connection absent from the user registry is still
routed to the same destination set, and every payload it produces carries
`from = "Anonymous"` and `fromMobile = "?"`. -/
theorem C7_anonymous_sender (st : St) (ws : Conn) (toId content : String)
    (h : mapGet st.users ws = none) :
    (handleChatMessage st ws toId content).2.map Prod.fst = routeTargets st toId
    ∧ (∀ p ∈ (handleChatMessage st ws toId content).2,
        p.2 = Payload.message "Anonymous" "?" toId content) := by
  have hpay : msgPayload st.users ws toId content
      = Payload.message "Anonymous" "?" toId content := by
    simp [msgPayload, senderName, senderMobile, h]
  constructor
  · cases hg : mapGet st.groups toId with
    | some mem =>
        simp only [handleChatMessage, routeTargets, hg, List.map_map]
        rw [show (Prod.fst ∘ fun socket : Conn =>
            (socket, msgPayload st.users ws toId content)) = id from rfl]
        exact List.map_id mem
    | none =>
        cases hf : findByIdentity st.users toId <;>
          simp [handleChatMessage, routeTargets, hg, hf]
  · intro p hp
    cases hg : mapGet st.groups toId with
    | some mem =>
        simp only [handleChatMessage, hg, List.mem_map] at hp
        obtain ⟨s, _, rfl⟩ := hp
        simpa using hpay
    | none =>
        cases hf : findByIdentity st.users toId with
        | some t =>
            simp only [handleChatMessage, hg, hf, List.mem_singleton] at hp
            subst hp
            simpa using hpay
        | none => simp [handleChatMessage, hg, hf] at hp

def stC7 : St := ⟨[(2, ⟨"Bob", "222"⟩)], []⟩

/-- Witness for C7: unregistered connection 1 direct-messages identity 222;
the message is routed to connection 2 as from Anonymous/?. -/
theorem C7_anonymous_sender_witness :
    (handleChatMessage stC7 1 "222" "yo").2.map Prod.fst = routeTargets stC7 "222" :=
  (C7_anonymous_sender stC7 1 "222" "yo" (by rfl)).1

/-- C10: if the registry holds a group named `g` with an empty member set —
even while some registered connection has identity `g` — a message addressed
to `g` is delivered to nobody: the group-existence check fires first and an
empty group shadows the identically-named user identity. -/
theorem C10_empty_group_shadows_dm (st : St) (ws : Conn) (g content : String)
    (hg : mapGet st.groups g = some [])
    (_hid : ∃ d u, mapGet st.users d = some u ∧ u.mobile = g) :
    (handleChatMessage st ws g content).2 = [] := by
  simp [handleChatMessage, hg]

def stC10 : St := ⟨[(1, ⟨"Alice", "g1"⟩)], [("g1", [])]⟩

/-- Witness for C10: user Alice is registered with identity `g1` while an
empty group `g1` exists; a message to `g1` reaches nobody. -/
theorem C10_empty_group_shadows_dm_witness :
    (handleChatMessage stC10 2 "g1" "hi").2 = [] :=
  C10_empty_group_shadows_dm stC10 2 "g1" "hi" (by rfl)
    ⟨1, ⟨"Alice", "g1"⟩, by rfl, rfl⟩

theorem mapGet_mem {K V : Type} [DecidableEq K] {m : List (K × V)} {k : K} {v : V}
    (h : mapGet m k = some v) : (k, v) ∈ m := by
  induction m with
  | nil => simp [mapGet] at h
  | cons hd tl ih =>
      obtain ⟨a, w⟩ := hd
      by_cases hak : a = k
      · subst hak
        simp [mapGet] at h
        simp [h]
      · simp [mapGet, hak] at h
        simp [ih h]

theorem mem_keys_mapSet {K V : Type} [DecidableEq K] (m : List (K × V)) (k j : K) (v : V) :
    j ∈ mapKeys (mapSet m k v) ↔ j ∈ mapKeys m ∨ j = k := by
  induction m with
  | nil => simp [mapSet, mapKeys]
  | cons hd tl ih =>
      obtain ⟨a, w⟩ := hd
      by_cases hak : a = k
      · subst hak
        simp [mapSet, mapKeys]
        tauto
      · simp [mapSet, hak, mapKeys] at ih ⊢
        tauto

theorem keys_nodup_mapSet {K V : Type} [DecidableEq K] (m : List (K × V)) (k : K) (v : V)
    (h : (mapKeys m).Nodup) : (mapKeys (mapSet m k v)).Nodup := by
  induction m with
  | nil => simp [mapSet, mapKeys]
  | cons hd tl ih =>
      obtain ⟨a, w⟩ := hd
      simp only [mapKeys, List.map_cons, List.nodup_cons] at h
      obtain ⟨ha, htl⟩ := h
      by_cases hak : a = k
      · subst hak
        have hset : mapSet ((a, w) :: tl) a v = (a, v) :: tl := by
          simp [mapSet]
        rw [hset]
        simpa [mapKeys, List.nodup_cons] using And.intro ha htl
      · simp only [mapSet, if_neg hak, mapKeys, List.map_cons, List.nodup_cons]
        refine ⟨?_, ih htl⟩
        intro hmem
        rcases (mem_keys_mapSet tl k a v).mp hmem with h1 | h1
        · exact ha h1
        · exact hak h1

theorem length_filter_key {K V : Type} [DecidableEq K] (m : List (K × V)) (d : K)
    (h : (mapKeys m).Nodup) :
    (m.filter (fun p => p.1 = d)).length
      = if (mapGet m d).isSome = true then 1 else 0 := by
  induction m with
  | nil => simp [mapGet]
  | cons hd tl ih =>
      obtain ⟨a, w⟩ := hd
      simp only [mapKeys, List.map_cons, List.nodup_cons] at h
      obtain ⟨ha, htl⟩ := h
      by_cases had : a = d
      · subst had
        have htail : tl.filter (fun p => p.1 = a) = [] := by
          refine List.filter_eq_nil_iff.mpr ?_
          intro p hp
          simp only [decide_eq_true_eq]
          intro hpa
          exact ha (by simpa [mapKeys, hpa] using List.mem_map_of_mem Prod.fst hp)
        simp [mapGet, htail]
      · simp [mapGet, had, ih htl]

theorem length_filter_pair (l : List (Conn × User)) (d : Conn) (pl : Payload) :
    ((l.map (fun p => (p.1, pl))).filter (fun q => q = (d, pl))).length
      = (l.filter (fun p => p.1 = d)).length := by
  induction l with
  | nil => simp
  | cons hd tl ih =>
      by_cases h : hd.1 = d
      · have h1 : ((hd.1, pl) : Conn × Payload) = (d, pl) := by rw [h]
        simp [h1, h, ih]
      · have h1 : ((hd.1, pl) : Conn × Payload) ≠ (d, pl) := by
          intro hc
          exact h (congrArg Prod.fst hc)
        simp [h1, h, ih]

theorem length_filter_filter_ne {K V : Type} [DecidableEq K] (m : List (K × V)) (c d : K)
    (hdc : d ≠ c) :
    ((m.filter (fun p => p.1 ≠ c)).filter (fun p => p.1 = d)).length
      = (m.filter (fun p => p.1 = d)).length := by
  induction m with
  | nil => rfl
  | cons hd tl ih =>
      by_cases h2 : hd.1 = c
      · have h1 : ¬ hd.1 = d := fun hh => hdc (hh.symm.trans h2)
        rw [List.filter_cons_of_neg (by simpa using h2),
          List.filter_cons_of_neg (by simpa using h1)]
        exact ih
      · by_cases h1 : hd.1 = d
        · rw [List.filter_cons_of_pos (by simpa using h2),
            List.filter_cons_of_pos (by simpa using h1),
            List.filter_cons_of_pos (by simpa using h1)]
          rw [List.length_cons, List.length_cons, ih]
        · rw [List.filter_cons_of_pos (by simpa using h2),
            List.filter_cons_of_neg (by simpa using h1),
            List.filter_cons_of_neg (by simpa using h1)]
          exact ih

theorem filter_eq_self_of_filter_ne {K V : Type} [DecidableEq K] (m : List (K × V)) (c : K) :
    (m.filter (fun p => p.1 ≠ c)).filter (fun p => p.1 = c) = [] := by
  refine List.filter_eq_nil_iff.mpr ?_
  intro p hp
  simp only [List.mem_filter, decide_eq_true_eq] at hp
  simp [hp.2]

/-- C4: every `join_group{name}` sends exactly one `joined_group`
confirmation, to the requester only; when the name was previously unseen,
exactly one `group_created` carrying the name goes to each
currently-registered connection (the joiner included when registered, with
no self-exclusion); when the group already existed, no `group_created` is
sent to anyone. -/
theorem C4_join_group_events (st : St) (ws : Conn) (g : String)
    (hN : (mapKeys st.users).Nodup) :
    ((handleJoinGroup st ws g).2.filter
        (fun p => p.2 = Payload.joined_group g)) = [(ws, Payload.joined_group g)]
    ∧ (mapGet st.groups g = none →
        ∀ d, ((handleJoinGroup st ws g).2.filter
            (fun p => p = (d, Payload.group_created g))).length
          = if (mapGet st.users d).isSome = true then 1 else 0)
    ∧ (∀ mem, mapGet st.groups g = some mem →
        (handleJoinGroup st ws g).2.filter
          (fun p => p.2 = Payload.group_created g) = []) := by
  refine ⟨?_, ?_, ?_⟩
  · cases hg : mapGet st.groups g with
    | some mem => simp [handleJoinGroup, hg]
    | none =>
        simp only [handleJoinGroup, hg]
        rw [List.filter_cons_of_pos (by simp)]
        have htail : (st.users.map
            (fun p => (p.1, Payload.group_created g))).filter
            (fun p => p.2 = Payload.joined_group g) = [] := by
          refine List.filter_eq_nil_iff.mpr ?_
          intro p hp
          simp only [List.mem_map] at hp
          obtain ⟨q, _, rfl⟩ := hp
          simp
        rw [htail]
  · intro hg d
    simp only [handleJoinGroup, hg]
    rw [List.filter_cons_of_neg (by simp)]
    rw [length_filter_pair st.users d (Payload.group_created g)]
    exact length_filter_key st.users d hN
  · intro mem hg
    simp [handleJoinGroup, hg]

/-- Witness for C4: with users 1 and 2 registered, connection 1 joining the
fresh group `dev` receives exactly one `joined_group` confirmation. -/
theorem C4_join_group_events_witness :
    ((handleJoinGroup stC5 1 "dev").2.filter
        (fun p => p.2 = Payload.joined_group "dev"))
      = [(1, Payload.joined_group "dev")] :=
  (C4_join_group_events stC5 1 "dev" (by decide)).1

/-- C3: a `register` event from connection `c` sends to `c`, in order, the
acknowledgement, the group-name snapshot, and a `user_list` built from the
post-registration registry minus `c`'s own entry (and nothing else — in
particular no `user_joined` for itself); the snapshot holds every other
registered connection's user exactly once; and a `user_joined` carrying the
new name and mobile reaches each other registered connection exactly once. -/
theorem C3_register_events (st : St) (c : Conn) (name mobile : String)
    (hN : (mapKeys st.users).Nodup) :
    ((handleRegister st c name mobile).2
        = [(c, Payload.registered true),
           (c, Payload.group_list (mapKeys st.groups)),
           (c, Payload.user_list (((mapSet st.users c ⟨name, mobile⟩).filter
              (fun p => p.1 ≠ c)).map Prod.snd))]
          ++ ((mapSet st.users c ⟨name, mobile⟩).filter (fun p => p.1 ≠ c)).map
              (fun p => (p.1, Payload.user_joined ⟨name, mobile⟩)))
    ∧ (((handleRegister st c name mobile).2.filter (fun p => p.1 = c)).map Prod.snd
        = [Payload.registered true,
           Payload.group_list (mapKeys st.groups),
           Payload.user_list (((mapSet st.users c ⟨name, mobile⟩).filter
              (fun p => p.1 ≠ c)).map Prod.snd)])
    ∧ (∀ d u, d ≠ c → mapGet (mapSet st.users c ⟨name, mobile⟩) d = some u →
        u ∈ ((mapSet st.users c ⟨name, mobile⟩).filter
          (fun p => p.1 ≠ c)).map Prod.snd)
    ∧ (∀ d, d ≠ c →
        ((mapSet st.users c ⟨name, mobile⟩).filter (fun p => p.1 = d)).length
          = if (mapGet (mapSet st.users c ⟨name, mobile⟩) d).isSome = true
            then 1 else 0)
    ∧ (∀ d, ((handleRegister st c name mobile).2.filter
          (fun p => p = (d, Payload.user_joined ⟨name, mobile⟩))).length
        = if d = c then 0
          else if (mapGet (mapSet st.users c ⟨name, mobile⟩) d).isSome = true
            then 1 else 0) := by
  have hN' : (mapKeys (mapSet st.users c ⟨name, mobile⟩)).Nodup :=
    keys_nodup_mapSet st.users c ⟨name, mobile⟩ hN
  refine ⟨rfl, ?_, ?_, ?_, ?_⟩
  · simp only [handleRegister, List.filter_append]
    rw [List.filter_cons_of_pos (by simp), List.filter_cons_of_pos (by simp),
      List.filter_cons_of_pos (by simp)]
    have htail : (((mapSet st.users c ⟨name, mobile⟩).filter
        (fun p => p.1 ≠ c)).map
          (fun p => (p.1, Payload.user_joined ⟨name, mobile⟩))).filter
        (fun p => p.1 = c) = [] := by
      refine List.filter_eq_nil_iff.mpr ?_
      intro p hp
      simp only [List.mem_map, List.mem_filter] at hp
      obtain ⟨q, ⟨_, hq2⟩, rfl⟩ := hp
      simpa using hq2
    rw [htail]
    simp
  · intro d u hdc hget
    refine List.mem_map.mpr ⟨(d, u), ?_, rfl⟩
    exact List.mem_filter.mpr ⟨mapGet_mem hget, by simpa using hdc⟩
  · intro d _
    exact length_filter_key _ d hN'
  · intro d
    simp only [handleRegister, List.filter_append, List.length_append]
    rw [List.filter_cons_of_neg (by simp), List.filter_cons_of_neg (by simp),
      List.filter_cons_of_neg (by simp)]
    rw [length_filter_pair ((mapSet st.users c ⟨name, mobile⟩).filter
      (fun p => p.1 ≠ c)) d (Payload.user_joined ⟨name, mobile⟩)]
    by_cases hdc : d = c
    · subst hdc
      rw [filter_eq_self_of_filter_ne]
      simp
    · rw [length_filter_filter_ne _ c d hdc, length_filter_key _ d hN']
      simp [hdc]

def stC3 : St := ⟨[(1, ⟨"Alice", "111"⟩)], []⟩

/-- Witness for C3: with Alice registered on connection 1, registering Bob on
connection 2 sends Bob the acknowledgement, the (empty) group list, and a
user list holding exactly Alice's entry. -/
theorem C3_register_events_witness :
    ((handleRegister stC3 2 "Bob" "222").2.filter (fun p => p.1 = 2)).map Prod.snd
      = [Payload.registered true,
         Payload.group_list (mapKeys stC3.groups),
         Payload.user_list (((mapSet stC3.users 2 ⟨"Bob", "222"⟩).filter
            (fun p => p.1 ≠ 2)).map Prod.snd)] :=
  (C3_register_events stC3 2 "Bob" "222" (by decide)).2.1
